import Mathlib

/-!
Verification development for the `firestore-indexes` ESLint rule (Q42).
The definitions below are shallow embeddings of the rule's source:
the full matcher variant of `lib/rules/firestore-indexes` (the unnamed
source file with `canUseIndexMerging`), its manifest loader, its analyzer
driver, and its call-chain extractor.  JavaScript string literals become
Lean `String`s; JS `null`/`undefined` object members become `Option`;
arrays become `List`.
-/

namespace FirestoreIndexes

/-- One recovered query clause, as built by `analyzeCallChain`:
`{field, operator}` for `where` calls (with `order` absent, modeled `none`),
and `{field, operator: 'orderBy', order}` for `orderBy` calls. -/
structure QueryField where
  field : String
  operator : String
  order : Option String
deriving DecidableEq, Repr

/-- One entry of an index declaration's `fields` array:
`{fieldPath, order?, arrayConfig?}`. -/
structure IndexField where
  fieldPath : String
  order : Option String
  arrayConfig : Option String
deriving DecidableEq, Repr

/-- One manifest entry: `{collectionGroup?, collectionId?, fields}`
(`fields || []` in the source defaults a missing array, so a plain list). -/
structure IndexDecl where
  collectionGroup : Option String
  collectionId : Option String
  fields : List IndexField
deriving DecidableEq, Repr

/-- `f.operator === '<' || f.operator === '<=' || f.operator === '>' || f.operator === '>='`. -/
def isInequalityOp (op : String) : Bool :=
  op == "<" || op == "<=" || op == ">" || op == ">="

/-- `f.operator === 'array-contains' || f.operator === 'array-contains-any'`. -/
def isArrayContainsOp (op : String) : Bool :=
  op == "array-contains" || op == "array-contains-any"

/-- `canUseIndexMerging(queryFields)` from the full rule variant.
`new Set(names).size` is modeled by `names.dedup.length`, and the JS
`names[0]` reads (reached only on nonempty lists) by `headD ""`. -/
def canUseIndexMerging (queryFields : List QueryField) : Bool :=
  let equalityFilters := queryFields.filter (fun f => f.operator == "==")
  let inequalityFilters := queryFields.filter (fun f => isInequalityOp f.operator)
  let orderByFields := queryFields.filter (fun f => f.operator == "orderBy")
  let arrayContainsFilters := queryFields.filter (fun f => isArrayContainsOp f.operator)
  if 0 < arrayContainsFilters.length then false
  else if 1 < orderByFields.length then false
  else if 1 < inequalityFilters.length then
    let inequalityFieldNames := inequalityFilters.map (fun f => f.field)
    if 1 < inequalityFieldNames.dedup.length then false
    else if orderByFields.length = 0 then true
    else inequalityFieldNames.headD "" == ((orderByFields.map (fun f => f.field)).headD "")
  else if inequalityFilters.length = 1 ∧ orderByFields.length = 1 then
    ((inequalityFilters.map (fun f => f.field)).headD "") == ((orderByFields.map (fun f => f.field)).headD "")
  else if queryFields.length = equalityFilters.length then true
  else if inequalityFilters.length = 1 ∧ orderByFields.length = 0 then true
  else if orderByFields.length = 1 ∧ inequalityFilters.length = 0 then true
  else false

/-- The `while` loop of the composite matcher that consumes the maximal
leading run of index fields that are array-config fields or named in the
equality class.  Returns the names collected into `indexEqualityFields`
together with the `fieldPath`s of the remaining index fields (the part of
`indexFieldNames` from `indexPos` on). -/
def equalityRun (equalityFieldNames : List String) : List IndexField → List String × List String
  | [] => ([], [])
  | f :: rest =>
    if f.arrayConfig == some "CONTAINS" || equalityFieldNames.contains f.fieldPath then
      let r := equalityRun equalityFieldNames rest
      (f.fieldPath :: r.1, r.2)
    else ([], f.fieldPath :: rest.map (fun x => x.fieldPath))

/-- The final `for (const rangeField of rangeFields)` loop: the range
fields must appear, in order, at the successive positions of the remaining
index fields (a prefix; trailing index fields are allowed). -/
def rangeMatch : List String → List String → Bool
  | [], _ => true
  | _ :: _, [] => false
  | r :: rs, i :: rest => if i == r then rangeMatch rs rest else false

/-- The body of the `indexes.indexes.some(index => ...)` callback of
`hasIndex` in the full rule variant: does this one declared index satisfy
the query (collection check included)? -/
def matchesIndex (collection : String) (queryFields : List QueryField) (index : IndexDecl) : Bool :=
  if index.collectionGroup ≠ some collection ∧ index.collectionId ≠ some collection then false
  else
    let indexFields := index.fields
    if queryFields.length = 0 then true
    else
      let relevantIndexFields := indexFields.filter (fun f => f.fieldPath != "__name__")
      let equalityQueryFields := queryFields.filter (fun f => f.operator == "==")
      let inequalityQueryFields := queryFields.filter (fun f => isInequalityOp f.operator)
      let orderByQueryFields := queryFields.filter (fun f => f.operator == "orderBy")
      let arrayContainsQueryFields := queryFields.filter (fun f => isArrayContainsOp f.operator)
      if arrayContainsQueryFields.any (fun qf =>
          match relevantIndexFields.find? (fun idxf => idxf.fieldPath == qf.field) with
          | none => true
          | some m => m.arrayConfig != some "CONTAINS") then false
      else
        let equalityFieldNames :=
          equalityQueryFields.map (fun f => f.field) ++ arrayContainsQueryFields.map (fun f => f.field)
        let inequalityFieldNames := inequalityQueryFields.map (fun f => f.field)
        let orderByFieldNames := orderByQueryFields.map (fun f => f.field)
        let indexFieldNames := relevantIndexFields.map (fun f => f.fieldPath)
        let allQueryFields := equalityFieldNames ++ inequalityFieldNames ++ orderByFieldNames
        if !(allQueryFields.all (fun qf => indexFieldNames.contains qf)) then false
        else
          let scan := equalityRun equalityFieldNames relevantIndexFields
          if !(equalityFieldNames.all (fun e => scan.1.contains e)) then false
          else rangeMatch (inequalityFieldNames ++ orderByFieldNames) scan.2

/-- `hasIndex(collection, queryFields)` of the full rule variant.
`indexes : Option (List IndexDecl)` models the loaded manifest's `indexes`
member; `none` models `!indexes || !indexes.indexes`. -/
def hasIndex (collection : String) (queryFields : List QueryField)
    (indexes : Option (List IndexDecl)) : Bool :=
  match indexes with
  | none => false
  | some idxs =>
    if canUseIndexMerging queryFields then true
    else idxs.any (fun index => matchesIndex collection queryFields index)

/-- The deduplication key built at a call site:
`collection + ':' + queryFields.map(f => f.field + ':' + f.operator).join(',')`. -/
def queryKey (collection : String) (queryFields : List QueryField) : String :=
  collection ++ ":" ++ String.intercalate "," (queryFields.map (fun f => f.field ++ ":" ++ f.operator))

/-- The human-readable filter list of the diagnostic:
`queryFields.map(f => f.field + ' (' + f.operator + ')').join(', ')`. -/
def mkFilters (queryFields : List QueryField) : String :=
  String.intercalate ", " (queryFields.map (fun f => f.field ++ " (" ++ f.operator ++ ")"))

/-- The guard `collection && (queryFields.length > 1 || queryFields.some(f => f.operator === 'orderBy'))`
deciding whether an extracted shape is checked at all (a JS empty string is
falsy, hence the `c != ""`). -/
def shapeChecked (c : String) (queryFields : List QueryField) : Bool :=
  c != "" && (decide (1 < queryFields.length) || queryFields.any (fun f => f.operator == "orderBy"))

/-- One extracted query shape: the resolved collection (or `null`) and the
ordered predicate list returned by `analyzeCallChain`. -/
structure Shape where
  collection : Option String
  queryFields : List QueryField
deriving DecidableEq, Repr

/-- The data of one `missingIndex` report. -/
structure Diag where
  collection : String
  filters : String
deriving DecidableEq, Repr

/-- The analyzer driver of one file pass: for each detected shape, apply the
threshold guard, the `reportedQueries` dedup set and `hasIndex`, emitting the
`missingIndex` reports in order.  Each report is paired with the dedup key
under which it was recorded in `reportedQueries`. -/
def runDriver (indexes : Option (List IndexDecl)) (reported : List String) :
    List Shape → List (String × Diag)
  | [] => []
  | s :: rest =>
    match s.collection with
    | none => runDriver indexes reported rest
    | some c =>
      if shapeChecked c s.queryFields then
        let key := queryKey c s.queryFields
        if !(reported.contains key) && !(hasIndex c s.queryFields indexes) then
          (key, ⟨c, mkFilters s.queryFields⟩) :: runDriver indexes (key :: reported) rest
        else runDriver indexes reported rest
      else runDriver indexes reported rest

/-- Outcome of the manifest-loading block of `create`: either an in-memory
index list to analyze with, or the fatal `invalidIndexFile` report (anchored
at line 1) followed by `return {}`. -/
inductive LoadOutcome where
  | loaded (indexes : List IndexDecl)
  | fatal
deriving DecidableEq, Repr

/-- Loader input, abstracting the filesystem and `JSON.parse`:
`none` = file missing or unreadable; `some none` = file read but
`JSON.parse` threw; `some (some idxs)` = parsed manifest `indexes` array. -/
abbrev LoadInput := Option (Option (List IndexDecl))

/-- The loading block of `lib/rules/firestore-indexes.js` (and `.ts`):
`existsSync` false gives `{indexes: []}` silently; a `JSON.parse` throw
reaches the catch that reports `invalidIndexFile` at line 1 and returns. -/
def loadIndexesJs : LoadInput → LoadOutcome
  | none => .loaded []
  | some none => .fatal
  | some (some idxs) => .loaded idxs

/-- The loading block of the full rule variant: `readFileSync` and
`JSON.parse` are both inside the inner `try`, whose catch sets
`{indexes: []}` — so a parse throw is swallowed exactly like a missing
file, and the outer `invalidIndexFile` catch is not reached. -/
def loadIndexesFull : LoadInput → LoadOutcome
  | none => .loaded []
  | some none => .loaded []
  | some (some idxs) => .loaded idxs

/-- A whole file analysis: after a fatal load the rule returns `{}` (no
visitors), so no query diagnostics; otherwise the driver runs. -/
def analyzeFile (outcome : LoadOutcome) (shapes : List Shape) : List (String × Diag) :=
  match outcome with
  | .fatal => []
  | .loaded idxs => runDriver (some idxs) [] shapes

/-- A call argument as seen by the extractor: a `Literal` node (its value,
modeled as a string) or any other expression. -/
inductive Arg where
  | lit (value : String)
  | other
deriving DecidableEq, Repr

/-- The expression fragment walked by `analyzeCallChain`: a call whose
callee is a member access `obj.method(args)`, a call with a non-member
callee, or any non-call node. -/
inductive Node where
  | mcall (obj : Node) (method : String) (args : List Arg)
  | call0 (args : List Arg)
  | leaf
deriving DecidableEq, Repr

/-- The pagination methods skipped by the walk. -/
def isPaginationMethod (m : String) : Bool :=
  m == "limit" || m == "offset" || m == "startAt" ||
    m == "startAfter" || m == "endAt" || m == "endBefore"

/-- The successive `replace(/CollRef$/,'').replace(/CollectionRef$/,'').replace(/Ref$/,'')`
(each replace is the identity when its suffix does not match). -/
def stripCollSuffix (s : String) : String :=
  let s1 := if s.endsWith "CollRef" then s.dropRight 7 else s
  let s2 := if s1.endsWith "CollectionRef" then s1.dropRight 13 else s1
  if s2.endsWith "Ref" then s2.dropRight 3 else s2

/-- `charAt(0).toLowerCase() + slice(1)`, then append `'s'` unless already
ending in `'s'`. -/
def toCollectionName (n : String) : String :=
  let base := match n.data with
    | [] => ""
    | c :: rest => String.mk (Char.toLower c :: rest)
  if base.endsWith "s" then base else base ++ "s"

/-- The backward chain walk of `analyzeCallChain`.  The accumulator is the
`queryFields` array: the JS `unshift` of each newly found (earlier-in-source)
predicate is the cons onto the already collected later predicates.  A `where`
with fewer than two arguments, or either extractor branch whose field
argument is not a `Literal`, records nothing and keeps walking. -/
def chainGo : Node → List QueryField → Option String × List QueryField
  | Node.mcall obj m args, acc =>
    if isPaginationMethod m then chainGo obj acc
    else if m == "where" then
      match args with
      | a0 :: a1 :: _ =>
        match a0 with
        | Arg.lit v =>
          let op := match a1 with
            | Arg.lit w => w
            | Arg.other => "unknown"
          chainGo obj (⟨v, op, none⟩ :: acc)
        | Arg.other => chainGo obj acc
      | _ => chainGo obj acc
    else if m == "orderBy" then
      match args with
      | a0 :: rest =>
        match a0 with
        | Arg.lit v =>
          let direction := match rest with
            | Arg.lit w :: _ => if w == "desc" then "DESCENDING" else "ASCENDING"
            | _ => "ASCENDING"
          chainGo obj (⟨v, "orderBy", some direction⟩ :: acc)
        | Arg.other => chainGo obj acc
      | [] => chainGo obj acc
    else if m == "collection" || m == "collectionGroup" then
      match args with
      | Arg.lit v :: _ => (some v, acc)
      | Arg.other :: _ => (none, acc)
      | [] => chainGo obj acc
    else if m.endsWith "CollRef" || m.endsWith "CollectionRef" || m.endsWith "Ref" then
      (some (toCollectionName (stripCollSuffix m)), acc)
    else chainGo obj acc
  | Node.call0 _, acc => (none, acc)
  | Node.leaf, acc => (none, acc)

/-- `analyzeCallChain(node)`: walk from the object of the terminal call. -/
def analyzeCallChain (node : Node) : Option String × List QueryField :=
  chainGo node []

/-- The components of a query field consulted by the matcher and the dedup
key: everything except the extracted `order` direction. -/
def qfProj (f : QueryField) : String × String := (f.field, f.operator)

/-- The components of an index field consulted by the matcher: everything
except the declared `order` direction. -/
def ifProj (f : IndexField) : String × Option String := (f.fieldPath, f.arrayConfig)

/-- The components of an index declaration consulted by the matcher. -/
def idxProj (i : IndexDecl) : Option String × Option String × List (String × Option String) :=
  (i.collectionGroup, i.collectionId, i.fields.map ifProj)

/-- The index `[a ASC, b ASC, c DESC]` on collection `coll` used by the
C1 example shapes. -/
def exIndexABC : IndexDecl :=
  ⟨some "coll", none,
    [⟨"a", some "ASCENDING", none⟩, ⟨"b", some "ASCENDING", none⟩,
      ⟨"c", some "DESCENDING", none⟩]⟩

/-! Helper lemmas -/

theorem one_lt_length_of_two_mem {α : Type} {l : List α} {a b : α}
    (ha : a ∈ l) (hb : b ∈ l) (hab : a ≠ b) : 1 < l.length := by
  cases l with
  | nil => cases ha
  | cons x t =>
    cases t with
    | cons y u => simp only [List.length_cons]; omega
    | nil =>
      rw [List.mem_singleton] at ha hb
      exact absurd (ha.trans hb.symm) hab

theorem qfProj_field {a b : QueryField} (h : qfProj a = qfProj b) : a.field = b.field :=
  congrArg Prod.fst h

theorem qfProj_operator {a b : QueryField} (h : qfProj a = qfProj b) : a.operator = b.operator :=
  congrArg Prod.snd h

theorem ifProj_fieldPath {a b : IndexField} (h : ifProj a = ifProj b) :
    a.fieldPath = b.fieldPath :=
  congrArg Prod.fst h

theorem ifProj_arrayConfig {a b : IndexField} (h : ifProj a = ifProj b) :
    a.arrayConfig = b.arrayConfig :=
  congrArg Prod.snd h

theorem length_of_map_eq {α β : Type} {g : α → β} {l l' : List α}
    (h : l.map g = l'.map g) : l.length = l'.length := by
  have := congrArg List.length h
  simpa using this

theorem map_filter_congr {α β : Type} (g : α → β) (p q : α → Bool)
    (hpq : ∀ a b, g a = g b → p a = q b) :
    ∀ {l l' : List α}, l.map g = l'.map g →
      (l.filter p).map g = (l'.filter q).map g := by
  intro l
  induction l with
  | nil =>
    intro l' h
    rw [List.map_nil] at h
    rw [List.map_eq_nil_iff.1 h.symm]
    rfl
  | cons a t ih =>
    intro l' h
    cases l' with
    | nil => simp at h
    | cons b t' =>
      simp only [List.map_cons, List.cons.injEq] at h
      have hpab := hpq a b h.1
      by_cases hp : p a = true
      · rw [List.filter_cons_of_pos hp, List.filter_cons_of_pos (by rw [← hpab]; exact hp)]
        simp only [List.map_cons]
        rw [h.1, ih h.2]
      · have hqb : ¬(q b = true) := by rw [← hpab]; exact hp
        rw [List.filter_cons_of_neg (by simpa using hp),
          List.filter_cons_of_neg (by simpa using hqb)]
        exact ih h.2

theorem any_congr_of_map {α β : Type} (g : α → β) (p q : α → Bool)
    (hpq : ∀ a b, g a = g b → p a = q b) :
    ∀ {l l' : List α}, l.map g = l'.map g → l.any p = l'.any q := by
  intro l
  induction l with
  | nil =>
    intro l' h
    rw [List.map_nil] at h
    rw [List.map_eq_nil_iff.1 h.symm]
    rfl
  | cons a t ih =>
    intro l' h
    cases l' with
    | nil => simp at h
    | cons b t' =>
      simp only [List.map_cons, List.cons.injEq] at h
      simp only [List.any_cons]
      rw [hpq a b h.1, ih h.2]

theorem find?_congr_of_map {α β : Type} (g : α → β) (p q : α → Bool)
    (hpq : ∀ a b, g a = g b → p a = q b) :
    ∀ {l l' : List α}, l.map g = l'.map g →
      Option.map g (l.find? p) = Option.map g (l'.find? q) := by
  intro l
  induction l with
  | nil =>
    intro l' h
    rw [List.map_nil] at h
    rw [List.map_eq_nil_iff.1 h.symm]
    rfl
  | cons a t ih =>
    intro l' h
    cases l' with
    | nil => simp at h
    | cons b t' =>
      simp only [List.map_cons, List.cons.injEq] at h
      have hpab := hpq a b h.1
      by_cases hp : p a = true
      · rw [List.find?_cons_of_pos _ hp, List.find?_cons_of_pos _ (by rw [← hpab]; exact hp)]
        simp [h.1]
      · have hqb : ¬(q b = true) := by rw [← hpab]; exact hp
        rw [List.find?_cons_of_neg _ (by simpa using hp),
          List.find?_cons_of_neg _ (by simpa using hqb)]
        exact ih h.2

theorem fields_of_proj_map {l l' : List QueryField} (h : l.map qfProj = l'.map qfProj) :
    l.map (fun f => f.field) = l'.map (fun f => f.field) := by
  have := congrArg (List.map Prod.fst) h
  rwa [List.map_map, List.map_map] at this

theorem fieldPaths_of_proj_map {l l' : List IndexField} (h : l.map ifProj = l'.map ifProj) :
    l.map (fun f => f.fieldPath) = l'.map (fun f => f.fieldPath) := by
  have := congrArg (List.map Prod.fst) h
  rwa [List.map_map, List.map_map] at this

theorem equalityRun_congr (eqNames : List String) :
    ∀ {l l' : List IndexField}, l.map ifProj = l'.map ifProj →
      equalityRun eqNames l = equalityRun eqNames l' := by
  intro l
  induction l with
  | nil =>
    intro l' h
    rw [List.map_nil] at h
    rw [List.map_eq_nil_iff.1 h.symm]
  | cons a t ih =>
    intro l' h
    cases l' with
    | nil => simp at h
    | cons b t' =>
      simp only [List.map_cons, List.cons.injEq] at h
      unfold equalityRun
      dsimp only
      rw [ifProj_fieldPath h.1, ifProj_arrayConfig h.1, ih h.2, fieldPaths_of_proj_map h.2]

theorem canUseIndexMerging_congr {l l' : List QueryField}
    (h : l.map qfProj = l'.map qfProj) :
    canUseIndexMerging l = canUseIndexMerging l' := by
  have heqf := map_filter_congr qfProj (fun f => f.operator == "==")
    (fun f => f.operator == "==") (fun a b hab => by dsimp only; rw [qfProj_operator hab]) h
  have hineq := map_filter_congr qfProj (fun f => isInequalityOp f.operator)
    (fun f => isInequalityOp f.operator) (fun a b hab => by dsimp only; rw [qfProj_operator hab]) h
  have hord := map_filter_congr qfProj (fun f => f.operator == "orderBy")
    (fun f => f.operator == "orderBy") (fun a b hab => by dsimp only; rw [qfProj_operator hab]) h
  have harr := map_filter_congr qfProj (fun f => isArrayContainsOp f.operator)
    (fun f => isArrayContainsOp f.operator) (fun a b hab => by dsimp only; rw [qfProj_operator hab]) h
  have hleq := length_of_map_eq heqf
  have hlineq := length_of_map_eq hineq
  have hlord := length_of_map_eq hord
  have hlarr := length_of_map_eq harr
  have hlen := length_of_map_eq h
  have hnineq := fields_of_proj_map hineq
  have hnord := fields_of_proj_map hord
  unfold canUseIndexMerging
  dsimp only
  rw [hlarr, hlord, hlineq, hnineq, hnord, hlen, hleq]

theorem matchesIndex_congr (c : String) {l l' : List QueryField} {i i' : IndexDecl}
    (hq : l.map qfProj = l'.map qfProj) (hi : idxProj i = idxProj i') :
    matchesIndex c l i = matchesIndex c l' i' := by
  have hcg : i.collectionGroup = i'.collectionGroup := congrArg (fun x => x.1) hi
  have hcid : i.collectionId = i'.collectionId := congrArg (fun x => x.2.1) hi
  have hfm : i.fields.map ifProj = i'.fields.map ifProj := congrArg (fun x => x.2.2) hi
  have hrel := map_filter_congr ifProj (fun f => f.fieldPath != "__name__")
    (fun f => f.fieldPath != "__name__") (fun a b hab => by dsimp only; rw [ifProj_fieldPath hab]) hfm
  have heqf := map_filter_congr qfProj (fun f => f.operator == "==")
    (fun f => f.operator == "==") (fun a b hab => by dsimp only; rw [qfProj_operator hab]) hq
  have hineq := map_filter_congr qfProj (fun f => isInequalityOp f.operator)
    (fun f => isInequalityOp f.operator) (fun a b hab => by dsimp only; rw [qfProj_operator hab]) hq
  have hord := map_filter_congr qfProj (fun f => f.operator == "orderBy")
    (fun f => f.operator == "orderBy") (fun a b hab => by dsimp only; rw [qfProj_operator hab]) hq
  have harr := map_filter_congr qfProj (fun f => isArrayContainsOp f.operator)
    (fun f => isArrayContainsOp f.operator) (fun a b hab => by dsimp only; rw [qfProj_operator hab]) hq
  have hany := any_congr_of_map qfProj
    (fun qf => match (i.fields.filter (fun f => f.fieldPath != "__name__")).find?
        (fun idxf => idxf.fieldPath == qf.field) with
      | none => true
      | some m => m.arrayConfig != some "CONTAINS")
    (fun qf => match (i'.fields.filter (fun f => f.fieldPath != "__name__")).find?
        (fun idxf => idxf.fieldPath == qf.field) with
      | none => true
      | some m => m.arrayConfig != some "CONTAINS")
    (fun a b hab => by
      have hfind := find?_congr_of_map ifProj
        (fun idxf => idxf.fieldPath == a.field) (fun idxf => idxf.fieldPath == b.field)
        (fun x y hxy => by dsimp only; rw [ifProj_fieldPath hxy, qfProj_field hab]) hrel
      dsimp only
      cases hA : (i.fields.filter (fun f => f.fieldPath != "__name__")).find?
          (fun idxf => idxf.fieldPath == a.field) with
      | none =>
        cases hB : (i'.fields.filter (fun f => f.fieldPath != "__name__")).find?
            (fun idxf => idxf.fieldPath == b.field) with
        | none => rfl
        | some m => rw [hA, hB] at hfind; simp at hfind
      | some m =>
        cases hB : (i'.fields.filter (fun f => f.fieldPath != "__name__")).find?
            (fun idxf => idxf.fieldPath == b.field) with
        | none => rw [hA, hB] at hfind; simp at hfind
        | some m' =>
          rw [hA, hB] at hfind
          simp only [Option.map_some', Option.some.injEq] at hfind
          dsimp only
          rw [ifProj_arrayConfig hfind])
    harr
  have hneq := fields_of_proj_map heqf
  have hnarr := fields_of_proj_map harr
  have hnineq := fields_of_proj_map hineq
  have hnord := fields_of_proj_map hord
  have hnidx := fieldPaths_of_proj_map hrel
  have hlen := length_of_map_eq hq
  unfold matchesIndex
  dsimp only
  rw [hcg, hcid, hlen, hany, hneq, hnarr, hnineq, hnord, hnidx,
    equalityRun_congr _ hrel]

theorem hasIndex_congr (c : String) {l l' : List QueryField} {idxs idxs' : List IndexDecl}
    (hq : l.map qfProj = l'.map qfProj) (hm : idxs.map idxProj = idxs'.map idxProj) :
    hasIndex c l (some idxs) = hasIndex c l' (some idxs') := by
  unfold hasIndex
  dsimp only
  rw [canUseIndexMerging_congr hq,
    any_congr_of_map idxProj (fun index => matchesIndex c l index)
      (fun index => matchesIndex c l' index)
      (fun a b hab => matchesIndex_congr c hq hab) hm]

theorem queryKey_congr (c : String) {l l' : List QueryField}
    (hq : l.map qfProj = l'.map qfProj) : queryKey c l = queryKey c l' := by
  unfold queryKey
  have hmapped : l.map (fun f => f.field ++ ":" ++ f.operator) =
      l'.map (fun f => f.field ++ ":" ++ f.operator) := by
    have := congrArg (List.map (fun p : String × String => p.1 ++ ":" ++ p.2)) hq
    rwa [List.map_map, List.map_map] at this
  rw [hmapped]

/-! Claim theorems -/

/-- Claim C1, counterexample: the claim asserts the index `[a ASC, b ASC,
c DESC]` does not satisfy the shape `{a ==, orderBy c desc, b ==}`, but the
composite matcher partitions the shape by filtering, so the interleaving of
the equality predicate `b ==` after the order predicate is invisible: the
candidate matches, and `hasIndex` accepts the shape. -/
theorem c1_counterexample :
    matchesIndex "coll"
      [⟨"a", "==", none⟩, ⟨"c", "orderBy", some "DESCENDING"⟩, ⟨"b", "==", none⟩]
      exIndexABC = true ∧
    hasIndex "coll"
      [⟨"a", "==", none⟩, ⟨"c", "orderBy", some "DESCENDING"⟩, ⟨"b", "==", none⟩]
      (some [exIndexABC]) = true := by
  constructor <;> decide

/-- Claim C1, amended: the composite prefix match depends only on the
partition of the shape into classes — equality-class fields may appear at
any textual position of the shape (even after order predicates), so
`[a ASC, b ASC, c DESC]` satisfies both `{b ==, a ==, orderBy c desc}` and
`{a ==, orderBy c desc, b ==}`; the inequality-class and order-class fields
must still match positionally after the equality run in their class-internal
shape order (`{a ==, orderBy c, orderBy b}` fails while
`{a ==, orderBy b, orderBy c}` matches). -/
theorem c1_amended_partition_only :
    matchesIndex "coll"
      [⟨"b", "==", none⟩, ⟨"a", "==", none⟩, ⟨"c", "orderBy", some "DESCENDING"⟩]
      exIndexABC = true ∧
    matchesIndex "coll"
      [⟨"a", "==", none⟩, ⟨"c", "orderBy", some "DESCENDING"⟩, ⟨"b", "==", none⟩]
      exIndexABC = true ∧
    matchesIndex "coll"
      [⟨"a", "==", none⟩, ⟨"c", "orderBy", some "DESCENDING"⟩, ⟨"b", "orderBy", some "ASCENDING"⟩]
      exIndexABC = false ∧
    matchesIndex "coll"
      [⟨"a", "==", none⟩, ⟨"b", "orderBy", some "ASCENDING"⟩, ⟨"c", "orderBy", some "DESCENDING"⟩]
      exIndexABC = true := by
  refine ⟨by decide, by decide, by decide, by decide⟩

/-- Claim C3, counterexample: a shape with an UNKNOWN-operator predicate is
not conservatively rejected.  `{a <, b unknown}` passes the index-merging
test (the merging code never looks for unknown operators, and its
one-inequality branch does not require the other predicates to be
equalities), so `hasIndex` accepts it against the empty manifest and the
checked shape produces no diagnostic. -/
theorem c3_counterexample :
    canUseIndexMerging [⟨"a", "<", none⟩, ⟨"b", "unknown", none⟩] = true ∧
    hasIndex "c" [⟨"a", "<", none⟩, ⟨"b", "unknown", none⟩] (some []) = true ∧
    runDriver (some []) [] [⟨some "c", [⟨"a", "<", none⟩, ⟨"b", "unknown", none⟩]⟩] = [] := by
  refine ⟨by decide, by decide, by decide⟩

/-- Claim C3, amended: UNKNOWN predicates are simply ignored rather than
treated conservatively — the composite matcher drops them from every class
(so a candidate index can match the remaining predicates: `{a unknown, b ==}`
matches an index on `b` alone), and the merging test classifies them as
none of equality, inequality, order or array-contains (so `{a <, b unknown}`
is merging-eligible, while a shape of only UNKNOWN predicates fails the
all-equality branch). -/
theorem c3_amended_unknown_ignored :
    hasIndex "c" [⟨"a", "unknown", none⟩, ⟨"b", "==", none⟩]
      (some [⟨some "c", none, [⟨"b", some "ASCENDING", none⟩]⟩]) = true ∧
    canUseIndexMerging [⟨"a", "<", none⟩, ⟨"b", "unknown", none⟩] = true ∧
    canUseIndexMerging [⟨"a", "unknown", none⟩, ⟨"b", "unknown", none⟩] = false := by
  refine ⟨by decide, by decide, by decide⟩

/-- Claim C4, counterexample: a shape with two inequality predicates on
different fields fails index merging, but the composite prefix test does not
always fail: a declared index listing both inequality fields in shape order
satisfies it, so with manifest `[{orders: [price, stock]}]` the shape
`{price >, stock <}` is accepted and produces no diagnostic. -/
theorem c4_counterexample :
    hasIndex "orders" [⟨"price", ">", none⟩, ⟨"stock", "<", none⟩]
      (some [⟨some "orders", none,
        [⟨"price", some "ASCENDING", none⟩, ⟨"stock", some "ASCENDING", none⟩]⟩]) = true ∧
    runDriver
      (some [⟨some "orders", none,
        [⟨"price", some "ASCENDING", none⟩, ⟨"stock", some "ASCENDING", none⟩]⟩])
      [] [⟨some "orders", [⟨"price", ">", none⟩, ⟨"stock", "<", none⟩]⟩] = [] := by
  refine ⟨by decide, by decide⟩

/-- Claim C4, amended: for every query shape containing two inequality
predicates on different fields, the index-merging test fails regardless of
manifest; the composite test fails against the empty manifest (so such a
shape is always diagnosed when no index is declared), but it is not
guaranteed to fail for every manifest — an index listing the two inequality
fields after the equality run in shape order satisfies it. -/
theorem c4_amended_merging_fails (qfs : List QueryField) (f g : QueryField)
    (hf : f ∈ qfs) (hg : g ∈ qfs)
    (hfo : isInequalityOp f.operator = true) (hgo : isInequalityOp g.operator = true)
    (hne : f.field ≠ g.field) :
    canUseIndexMerging qfs = false ∧
    ∀ c : String, hasIndex c qfs (some []) = false ∧
      (c ≠ "" → runDriver (some []) [] [⟨some c, qfs⟩] =
        [(queryKey c qfs, ⟨c, mkFilters qfs⟩)]) := by
  have hfg : f ≠ g := fun h => hne (congrArg QueryField.field h)
  have hfI : f ∈ qfs.filter (fun x => isInequalityOp x.operator) :=
    List.mem_filter.2 ⟨hf, hfo⟩
  have hgI : g ∈ qfs.filter (fun x => isInequalityOp x.operator) :=
    List.mem_filter.2 ⟨hg, hgo⟩
  have hlenI : 1 < (qfs.filter (fun x => isInequalityOp x.operator)).length :=
    one_lt_length_of_two_mem hfI hgI hfg
  have hfn : f.field ∈ ((qfs.filter (fun x => isInequalityOp x.operator)).map
      (fun x => x.field)).dedup :=
    List.mem_dedup.2 (List.mem_map.2 ⟨f, hfI, rfl⟩)
  have hgn : g.field ∈ ((qfs.filter (fun x => isInequalityOp x.operator)).map
      (fun x => x.field)).dedup :=
    List.mem_dedup.2 (List.mem_map.2 ⟨g, hgI, rfl⟩)
  have hded : 1 < ((qfs.filter (fun x => isInequalityOp x.operator)).map
      (fun x => x.field)).dedup.length :=
    one_lt_length_of_two_mem hfn hgn hne
  have hmerge : canUseIndexMerging qfs = false := by
    unfold canUseIndexMerging
    dsimp only
    split_ifs <;> rfl
  refine ⟨hmerge, fun c => ⟨?_, fun hc => ?_⟩⟩
  · simp [hasIndex, hmerge]
  · have hq : 1 < qfs.length := one_lt_length_of_two_mem hf hg hfg
    have hchk : shapeChecked c qfs = true := by
      simp [shapeChecked, hq, hc]
    simp [runDriver, hchk, hasIndex, hmerge]

/-- Claim C4, witness for the amended theorem at the shape
`{price >, stock <}` on collection `orders`. -/
theorem c4_amended_witness :
    canUseIndexMerging [⟨"price", ">", none⟩, ⟨"stock", "<", none⟩] = false ∧
    hasIndex "orders" [⟨"price", ">", none⟩, ⟨"stock", "<", none⟩] (some []) = false :=
  ⟨(c4_amended_merging_fails _ ⟨"price", ">", none⟩ ⟨"stock", "<", none⟩
      (by decide) (by decide) (by decide) (by decide) (by decide)).1,
    ((c4_amended_merging_fails _ ⟨"price", ">", none⟩ ⟨"stock", "<", none⟩
      (by decide) (by decide) (by decide) (by decide) (by decide)).2 "orders").1⟩

/-- Claim C2: a predicate list of only equality operators (with at least two
predicates, so the threshold guard passes whenever the collection is a
nonempty string) always satisfies the index-merging test, hence `hasIndex`
returns true for every manifest index list — including the empty one — and
the driver emits no diagnostic for such a shape. -/
theorem c2_all_equality_always_eligible (qfs : List QueryField)
    (hlen : 2 ≤ qfs.length) (hall : ∀ f ∈ qfs, f.operator = "==") :
    canUseIndexMerging qfs = true ∧
    ∀ (c : String) (idxs : List IndexDecl),
      hasIndex c qfs (some idxs) = true ∧
      shapeChecked c qfs = (c != "") ∧
      ∀ (reported : List String) (rest : List Shape),
        runDriver (some idxs) reported (⟨some c, qfs⟩ :: rest) =
          runDriver (some idxs) reported rest := by
  have harr : qfs.filter (fun f => isArrayContainsOp f.operator) = [] :=
    List.filter_eq_nil_iff.2 (fun a ha => by simp [isArrayContainsOp, hall a ha])
  have hineq : qfs.filter (fun f => isInequalityOp f.operator) = [] :=
    List.filter_eq_nil_iff.2 (fun a ha => by simp [isInequalityOp, hall a ha])
  have hord : qfs.filter (fun f => f.operator == "orderBy") = [] :=
    List.filter_eq_nil_iff.2 (fun a ha => by simp [hall a ha])
  have heqf : qfs.filter (fun f => f.operator == "==") = qfs :=
    List.filter_eq_self.2 (fun a ha => by simp [hall a ha])
  have hmerge : canUseIndexMerging qfs = true := by
    unfold canUseIndexMerging
    dsimp only
    rw [harr, hineq, hord, heqf]
    simp
  refine ⟨hmerge, fun c idxs => ⟨?_, ?_, ?_⟩⟩
  · simp [hasIndex, hmerge]
  · have : decide (1 < qfs.length) = true := by simp; omega
    simp [shapeChecked, this]
  · intro reported rest
    have hhi : hasIndex c qfs (some idxs) = true := by simp [hasIndex, hmerge]
    by_cases hchk : shapeChecked c qfs = true
    · simp [runDriver, hchk, hhi]
    · simp only [Bool.not_eq_true] at hchk
      simp [runDriver, hchk]

/-- Claim C2, witness at `{a ==, b ==}` against the empty manifest. -/
theorem c2_witness :
    canUseIndexMerging [⟨"a", "==", none⟩, ⟨"b", "==", none⟩] = true ∧
    hasIndex "x" [⟨"a", "==", none⟩, ⟨"b", "==", none⟩] (some []) = true :=
  ⟨(c2_all_equality_always_eligible _ (by decide) (by decide)).1,
    ((c2_all_equality_always_eligible [⟨"a", "==", none⟩, ⟨"b", "==", none⟩]
      (by decide) (by decide)).2 "x" []).1⟩

/-- Claim C5: a shape containing an array-contains(-any) predicate always
fails index merging (so in particular an array-contains plus one equality
never passes merging), and when no declared index of the manifest has an
entry `{fieldPath: that field, arrayConfig: "CONTAINS"}`, every candidate
fails the composite test as well, so `hasIndex` rejects the shape. -/
theorem c5_array_contains_needs_entry (qfs : List QueryField) (f0 : QueryField)
    (hf : f0 ∈ qfs) (hop : isArrayContainsOp f0.operator = true)
    (c : String) (idxs : List IndexDecl)
    (hidx : ∀ idx ∈ idxs, ∀ fld ∈ idx.fields,
      ¬(fld.fieldPath = f0.field ∧ fld.arrayConfig = some "CONTAINS")) :
    canUseIndexMerging qfs = false ∧ hasIndex c qfs (some idxs) = false := by
  have hfA : f0 ∈ qfs.filter (fun f => isArrayContainsOp f.operator) :=
    List.mem_filter.2 ⟨hf, hop⟩
  have hlenA : 0 < (qfs.filter (fun f => isArrayContainsOp f.operator)).length :=
    List.length_pos.2 (List.ne_nil_of_mem hfA)
  have hmerge : canUseIndexMerging qfs = false := by
    unfold canUseIndexMerging
    dsimp only
    split_ifs
    rfl
  refine ⟨hmerge, ?_⟩
  have hqlen : ¬(qfs.length = 0) := by
    have := List.length_pos.2 (List.ne_nil_of_mem hf)
    omega
  simp only [hasIndex, hmerge, Bool.false_eq_true, if_false]
  rw [List.any_eq_false]
  intro idx hidxmem
  simp only [Bool.not_eq_true]
  have hany : (qfs.filter (fun f => isArrayContainsOp f.operator)).any (fun qf =>
      match (idx.fields.filter (fun f => f.fieldPath != "__name__")).find?
          (fun idxf => idxf.fieldPath == qf.field) with
      | none => true
      | some m => m.arrayConfig != some "CONTAINS") = true := by
    rw [List.any_eq_true]
    refine ⟨f0, hfA, ?_⟩
    cases hfind : (idx.fields.filter (fun f => f.fieldPath != "__name__")).find?
        (fun idxf => idxf.fieldPath == f0.field) with
    | none => simp [hfind]
    | some m =>
      have hmem : m ∈ idx.fields :=
        (List.mem_filter.1 (List.mem_of_find?_eq_some hfind)).1
      have hpath : m.fieldPath = f0.field := by
        have := List.find?_some hfind
        simpa using this
      have hcfg : m.arrayConfig ≠ some "CONTAINS" := by
        intro hcontra
        exact hidx idx hidxmem m hmem ⟨hpath, hcontra⟩
      simp [hfind, hcfg]
  unfold matchesIndex
  dsimp only
  rw [if_neg hqlen, hany]
  simp

/-- Claim C5, witness: `{tags array-contains, a ==}` against a manifest whose
only index lists `tags` without `arrayConfig: "CONTAINS"`. -/
theorem c5_witness :
    canUseIndexMerging [⟨"tags", "array-contains", none⟩, ⟨"a", "==", none⟩] = false ∧
    hasIndex "c" [⟨"tags", "array-contains", none⟩, ⟨"a", "==", none⟩]
      (some [⟨some "c", none,
        [⟨"tags", some "ASCENDING", none⟩, ⟨"a", some "ASCENDING", none⟩]⟩]) = false :=
  c5_array_contains_needs_entry _ ⟨"tags", "array-contains", none⟩
    (by decide) (by decide) "c" _ (by decide)

/-- Claim C7: a shape with an unresolved (null) collection, or with zero
predicates, or with exactly one predicate none of which is an ORDER
predicate, is skipped by the driver: no diagnostic is emitted, the dedup
set is unchanged, and the result does not depend on the manifest (the
matcher is never consulted for it). -/
theorem c7_below_threshold_skipped (indexes : Option (List IndexDecl))
    (reported : List String) (s : Shape) (rest : List Shape)
    (h : s.collection = none ∨ s.queryFields = [] ∨
      (s.queryFields.length = 1 ∧ ∀ f ∈ s.queryFields, f.operator ≠ "orderBy")) :
    runDriver indexes reported (s :: rest) = runDriver indexes reported rest := by
  obtain ⟨cOpt, qfs⟩ := s
  rcases h with h | h | ⟨h1, h2⟩
  · simp only at h
    subst h
    rfl
  · simp only at h
    subst h
    cases cOpt with
    | none => rfl
    | some c => simp [runDriver, shapeChecked]
  · simp only at h1 h2
    cases cOpt with
    | none => rfl
    | some c =>
      have hany : qfs.any (fun f => f.operator == "orderBy") = false := by
        rw [List.any_eq_false]
        intro f hfm
        simp [h2 f hfm]
      have hchk : shapeChecked c qfs = false := by
        simp [shapeChecked, hany, h1]
      simp [runDriver, hchk]

/-- Claim C7, witness at the single-predicate shape `{a ==}`. -/
theorem c7_witness :
    runDriver none [] [⟨some "c", [⟨"a", "==", none⟩]⟩] = runDriver none [] [] :=
  c7_below_threshold_skipped none [] ⟨some "c", [⟨"a", "==", none⟩]⟩ []
    (Or.inr (Or.inr (by decide)))

/-- Auxiliary invariant for the dedup proof: every key emitted by a driver
run is fresh with respect to the incoming `reportedQueries` set, and the
emitted keys are pairwise distinct. -/
theorem runDriver_keys_fresh (indexes : Option (List IndexDecl)) :
    ∀ (shapes : List Shape) (reported : List String),
      ((runDriver indexes reported shapes).map Prod.fst).Nodup ∧
      ∀ k ∈ (runDriver indexes reported shapes).map Prod.fst, k ∉ reported := by
  intro shapes
  induction shapes with
  | nil => intro reported; simp [runDriver]
  | cons s rest ih =>
    intro reported
    cases hcol : s.collection with
    | none =>
      simpa only [runDriver, hcol] using ih reported
    | some c =>
      cases hchk : shapeChecked c s.queryFields with
      | false =>
        simpa only [runDriver, hcol, hchk, Bool.false_eq_true, if_false] using ih reported
      | true =>
        cases hg : (!(reported.contains (queryKey c s.queryFields)) &&
            !(hasIndex c s.queryFields indexes)) with
        | false =>
          simpa only [runDriver, hcol, hchk, if_true, hg, Bool.false_eq_true, if_false]
            using ih reported
        | true =>
          have hfresh : queryKey c s.queryFields ∉ reported := by
            rw [Bool.and_eq_true] at hg
            have hcontains := hg.1
            rw [Bool.not_eq_true'] at hcontains
            intro hmem
            simp [List.contains, List.elem_eq_mem, hmem] at hcontains
          have ihrec := ih (queryKey c s.queryFields :: reported)
          constructor
          · simp only [runDriver, hcol, hchk, if_true, hg, List.map_cons]
            refine List.Nodup.cons ?_ ihrec.1
            intro hmem
            exact (ihrec.2 _ hmem) (List.mem_cons_self _ _)
          · intro k hk
            simp only [runDriver, hcol, hchk, if_true, hg, List.map_cons,
              List.mem_cons] at hk
            rcases hk with hk | hk
            · subst hk; exact hfresh
            · intro hmem
              exact (ihrec.2 _ hk) (List.mem_cons_of_mem _ hmem)

/-- Claim C8: within one analysis pass the driver emits at most one
missing-index diagnostic per deduplication key — the keys paired with the
emitted diagnostics of a run started with an empty `reportedQueries` set are
pairwise distinct, so once a key has been reported no later shape with the
same key is reported again. -/
theorem c8_dedup_at_most_once (indexes : Option (List IndexDecl)) (shapes : List Shape) :
    ((runDriver indexes [] shapes).map Prod.fst).Nodup :=
  (runDriver_keys_fresh indexes shapes []).1

/-- Claim C6: the named rule file's loader treats a missing manifest as the
silent `{indexes: []}` and a `JSON.parse` failure as the single fatal
`invalidIndexFile` report, after which no missing-index diagnostics are
emitted; but the full rule variant's loader swallows the parse failure in
its inner catch (whose comment only contemplates a missing or unreadable
file) and proceeds, emitting missing-index diagnostics for a file with a
malformed manifest. -/
theorem c6_loader_malformed_json :
    loadIndexesJs none = .loaded [] ∧
    loadIndexesJs (some none) = .fatal ∧
    analyzeFile .fatal
      [⟨some "orders", [⟨"price", ">", none⟩, ⟨"stock", "<", none⟩]⟩] = [] ∧
    loadIndexesFull (some none) = .loaded [] ∧
    analyzeFile (loadIndexesFull (some none))
      [⟨some "orders", [⟨"price", ">", none⟩, ⟨"stock", "<", none⟩]⟩] ≠ [] := by
  refine ⟨by decide, by decide, by decide, by decide, by decide⟩

/-- Claim C10: a `where` or `orderBy` call whose field argument is not a
literal records no predicate descriptor — the walk continues past it
unchanged — and the shape can shrink below the index-check threshold: the
two-predicate chain `collection('c').where(<computed>, '==', _).where('a','==',_)`
extracts as the single-predicate shape `{a ==}`, which is never checked. -/
theorem c10_nonliteral_field_dropped :
    (∀ (obj : Node) (rest : List Arg) (acc : List QueryField),
      chainGo (Node.mcall obj "where" (Arg.other :: rest)) acc = chainGo obj acc) ∧
    (∀ (obj : Node) (rest : List Arg) (acc : List QueryField),
      chainGo (Node.mcall obj "orderBy" (Arg.other :: rest)) acc = chainGo obj acc) ∧
    analyzeCallChain
      (Node.mcall (Node.mcall (Node.mcall Node.leaf "collection" [Arg.lit "c"])
        "where" [Arg.other, Arg.lit "=="]) "where" [Arg.lit "a", Arg.lit "=="]) =
      (some "c", [⟨"a", "==", none⟩]) ∧
    shapeChecked "c" [⟨"a", "==", none⟩] = false := by
  refine ⟨?_, ?_, by decide, by decide⟩
  · intro obj rest acc
    cases rest <;> rfl
  · intro obj rest acc
    rfl

/-- Claim C9: the matcher and the dedup key never consult ordering
directions — any two query-field lists agreeing on `(field, operator)` and
any two manifests agreeing on collection names, `fieldPath`s and
`arrayConfig`s (so in particular inputs differing only by flipping
`ASCENDING`/`DESCENDING` on any orderBy predicate or any declared index
field) produce the same `hasIndex` verdict and the same dedup key. -/
theorem c9_direction_never_consulted (c : String)
    (qfs qfs' : List QueryField) (idxs idxs' : List IndexDecl)
    (hq : qfs.map qfProj = qfs'.map qfProj)
    (hm : idxs.map idxProj = idxs'.map idxProj) :
    hasIndex c qfs (some idxs) = hasIndex c qfs' (some idxs') ∧
    queryKey c qfs = queryKey c qfs' :=
  ⟨hasIndex_congr c hq hm, queryKey_congr c hq⟩

/-- Claim C9, witness: flipping the orderBy direction of the shape and the
declared directions of the index leaves verdict and key unchanged. -/
theorem c9_witness :
    hasIndex "posts"
      [⟨"status", "==", none⟩, ⟨"createdAt", "orderBy", some "DESCENDING"⟩]
      (some [⟨some "posts", none,
        [⟨"status", some "ASCENDING", none⟩, ⟨"createdAt", some "DESCENDING", none⟩]⟩]) =
    hasIndex "posts"
      [⟨"status", "==", none⟩, ⟨"createdAt", "orderBy", some "ASCENDING"⟩]
      (some [⟨some "posts", none,
        [⟨"status", some "DESCENDING", none⟩, ⟨"createdAt", some "ASCENDING", none⟩]⟩]) ∧
    queryKey "posts" [⟨"status", "==", none⟩, ⟨"createdAt", "orderBy", some "DESCENDING"⟩] =
    queryKey "posts" [⟨"status", "==", none⟩, ⟨"createdAt", "orderBy", some "ASCENDING"⟩] :=
  c9_direction_never_consulted "posts"
    [⟨"status", "==", none⟩, ⟨"createdAt", "orderBy", some "DESCENDING"⟩]
    [⟨"status", "==", none⟩, ⟨"createdAt", "orderBy", some "ASCENDING"⟩]
    [⟨some "posts", none,
      [⟨"status", some "ASCENDING", none⟩, ⟨"createdAt", some "DESCENDING", none⟩]⟩]
    [⟨some "posts", none,
      [⟨"status", some "DESCENDING", none⟩, ⟨"createdAt", some "ASCENDING", none⟩]⟩]
    (by decide) (by decide)

end FirestoreIndexes
